import Mathlib

/-!
Verification development for the `claude-session-search` TUI.

The TypeScript sources (`src/utils/sessionScanner.ts`, re-exported through
`src/index.tsx`, and `src/components/SearchView.tsx`) are shallowly embedded
below.  JavaScript strings are modelled as Lean `String`; the handful of
JavaScript string primitives the code uses (`trim`, `toLowerCase`,
`startsWith`, `endsWith`, `includes`, `split('/')`, `length`, first-occurrence
`replace`) are given explicit executable models over the character list of the
string.  JSON parsing of a `.jsonl` line is abstracted: a line is either a
parsed `SessionMessage` or a parse failure (`none`), exactly the two outcomes
the scanner distinguishes.  Timestamps are epoch milliseconds (`Int`);
fractional scores are `ℚ`.
-/

/-- Whitespace recognised by the model of JavaScript `String.prototype.trim`. -/
def isSpaceChar (c : Char) : Bool :=
  c == ' ' || c == '\t' || c == '\n' || c == '\r'

/-- Model of JavaScript `s.trim()`: drop leading and trailing whitespace. -/
def jsTrim (s : String) : String :=
  ⟨((s.data.dropWhile isSpaceChar).reverse.dropWhile isSpaceChar).reverse⟩

/-- Model of JavaScript `s.toLowerCase()` (ASCII case mapping). -/
def jsToLower (s : String) : String :=
  ⟨s.data.map Char.toLower⟩

/-- Model of JavaScript `s.startsWith(pat)`. -/
def jsStartsWith (s pat : String) : Bool :=
  pat.data.isPrefixOf s.data

/-- Model of JavaScript `s.endsWith(pat)`. -/
def jsEndsWith (s pat : String) : Bool :=
  pat.data.isSuffixOf s.data

/-- Does `pat` occur as a contiguous run inside the character list? -/
def hasInfix (pat : List Char) : List Char → Bool
  | [] => pat.isEmpty
  | c :: rest => pat.isPrefixOf (c :: rest) || hasInfix pat rest

/-- Model of JavaScript `s.includes(pat)`. -/
def jsIncludes (s pat : String) : Bool :=
  hasInfix pat.data s.data

/-- Model of JavaScript `s.length` (code points; the sources only compare
against small ASCII thresholds). -/
def jsLength (s : String) : Nat :=
  s.data.length

/-- Model of JavaScript `s.split('/')` on the character list: every `/`
separates two (possibly empty) fields. -/
def splitSlash : List Char → List (List Char)
  | [] => [[]]
  | c :: rest =>
    if c = '/' then [] :: splitSlash rest
    else
      match splitSlash rest with
      | [] => [[c]]
      | h :: t => (c :: h) :: t

/-- Remove the first occurrence of `pat`, the model of JavaScript
`s.replace(pat, '')` with a plain-string pattern. -/
def replFirst (pat : List Char) : List Char → List Char
  | [] => []
  | c :: rest =>
    if pat.isPrefixOf (c :: rest) then (c :: rest).drop pat.length
    else c :: replFirst pat rest

/-- `sessionFile.replace('.jsonl', '')` from `scanSessions`. -/
def sessionIdOf (name : String) : String :=
  ⟨replFirst ".jsonl".data name.data⟩

/-- One element of a structured message `content` array:
`{ type: string; text?: string; thinking?: string }`. -/
structure ContentBlock where
  type : String
  text : Option String := none
  thinking : Option String := none
deriving DecidableEq, Repr

/-- JavaScript truthiness of an optional string field: present and non-empty. -/
def optTruthy : Option String → Bool
  | none => false
  | some s => s ≠ ""

/-- A message `content` value: either a plain string or an array of blocks. -/
inductive Content where
  | str (s : String)
  | blocks (items : List ContentBlock)
deriving DecidableEq, Repr

/-- JavaScript truthiness of a `content` value (`msg.message?.content` tests):
an empty string is falsy, any array is truthy. -/
def contentTruthy : Content → Bool
  | .str s => s ≠ ""
  | .blocks _ => true

/-- The per-item mapping inside `extractTextContent`'s `content.map(...)`:
`text` blocks with truthy `text` give the text, `thinking` blocks with truthy
`thinking` give the thinking, everything else gives `''`. -/
def blockText (item : ContentBlock) : String :=
  if item.type = "text" && optTruthy item.text then item.text.getD ""
  else if item.type = "thinking" && optTruthy item.thinking then item.thinking.getD ""
  else ""

/-- Model of JavaScript `arr.join(sep)`: `sep` between every two consecutive
elements, empty elements included. -/
def joinWith (sep : String) : List String → String
  | [] => ""
  | [t] => t
  | t :: ts => t ++ sep ++ joinWith sep ts

/-- `extractTextContent` from `sessionScanner.ts`: a plain string is returned
unchanged; an array is mapped by `blockText` and joined with `' '`. -/
def extractTextContent : Content → String
  | .str s => s
  | .blocks items => joinWith " " (items.map blockText)

/-- `message` payload of a log entry: `{ role, content }`. -/
structure MessagePayload where
  role : String
  content : Content
deriving DecidableEq, Repr

/-- One parsed `.jsonl` line (the `SessionMessage` interface).  `timestamp`
stands for the already-parsed epoch milliseconds of the optional timestamp
string, `none` when the field is absent or falsy. -/
structure SessionMessage where
  type : String
  message : Option MessagePayload := none
  timestamp : Option Int := none
  cwd : Option String := none
deriving DecidableEq, Repr

/-- The `Session` record assembled by `scanSessions`.  `distance` is the
transient field attached by the final `map` before sorting (0 until then). -/
structure Session where
  id : String
  directory : String
  filePath : String
  firstMessage : String
  messages : List SessionMessage
  timestamp : Int
  cwd : String
  distance : Nat := 0
deriving DecidableEq, Repr

/-- `pathToDirectory` from `sessionScanner.ts`: strip one leading dash. -/
def pathToDirectory (projectName : String) : String :=
  if jsStartsWith projectName "-" then ⟨projectName.data.drop 1⟩
  else projectName

/-- Non-empty path segments: `path.split('/').filter(p => p)`. -/
def pathParts (s : String) : List String :=
  ((splitSlash s.data).map fun l => (⟨l⟩ : String)).filter (fun p => p ≠ "")

/-- Length of the common leading-segment run of two segment lists (the
`commonLength` loop of `calculatePathDistance`). -/
def commonLen : List String → List String → Nat
  | a :: as, b :: bs => if a = b then commonLen as bs + 1 else 0
  | _, _ => 0

/-- `calculatePathDistance` from `sessionScanner.ts`: steps up plus steps down
through the nearest common ancestor. -/
def calculatePathDistance (f t : String) : Nat :=
  (pathParts f).length - commonLen (pathParts f) (pathParts t)
    + ((pathParts t).length - commonLen (pathParts f) (pathParts t))

/-- One `.jsonl` file of a project directory: its name and its
already-line-split, per-line parse results (`none` = `JSON.parse` threw). -/
structure SessionFile where
  name : String
  lines : List (Option SessionMessage)
deriving DecidableEq, Repr

/-- One entry of `~/.claude/projects`: `readdir` name, whether `stat` says it
is a directory, and the files it contains. -/
structure ProjectEntry where
  name : String
  isDir : Bool := true
  files : List SessionFile
deriving DecidableEq, Repr

/-- The part of the filesystem `scanSessions` reads: whether
`~/.claude/projects` exists, and its entries. -/
structure ClaudeFS where
  rootExists : Bool
  projects : List ProjectEntry
deriving DecidableEq, Repr

/-- The `find` predicate for the first user message:
`msg.type === 'user' && msg.message?.content`. -/
def isQualifyingUser (m : SessionMessage) : Bool :=
  m.type == "user" &&
    (match m.message with
     | some p => contentTruthy p.content
     | none => false)

/-- The per-file body of `scanSessions`' inner loop: parse the lines, find the
first user message with truthy content, run the first-message filters, and
build a `Session` (or skip the file, `none`). -/
def processFile (projectDirName : String) (file : SessionFile) : Option Session :=
  let messages := file.lines.filterMap id
  match messages.find? isQualifyingUser with
  | none => none
  | some fum =>
    match fum.message with
    | none => none
    | some payload =>
      let encodedDirectory := pathToDirectory projectDirName
      let firstMessage := extractTextContent payload.content
      if jsTrim firstMessage = "" then none
      else if jsTrim (jsToLower firstMessage) = "warmup" then none
      else if jsTrim (jsToLower firstMessage) = "claim" then none
      else if jsStartsWith firstMessage "<command-message>" then none
      else if jsStartsWith firstMessage "<command-name>" then none
      else if jsStartsWith firstMessage "\x7b" && jsIncludes firstMessage "\"hooks\"" then none
      else if jsLength firstMessage < 3 then none
      else
        let timestamp := (fum.timestamp).getD 0
        let cwd :=
          match fum.cwd with
          | some c => if c ≠ "" then c else encodedDirectory
          | none => encodedDirectory
        some
          { id := sessionIdOf file.name
            directory := cwd
            filePath := projectDirName ++ "/" ++ file.name
            firstMessage := firstMessage
            messages := messages
            timestamp := timestamp
            cwd := cwd }

/-- Sessions accumulated by the two nested loops of `scanSessions`, before the
distance map and the sort: non-directory entries are skipped, only `.jsonl`
files are considered, and skipped files contribute nothing. -/
def collectSessions (fs : ClaudeFS) : List Session :=
  (fs.projects.filter (·.isDir)).flatMap fun proj =>
    (proj.files.filter fun f => jsEndsWith f.name ".jsonl").filterMap
      (processFile proj.name)

/-- The sort comparator of `scanSessions` as a boolean "a may precede b":
distance ascending, then timestamp descending. -/
def sessionLE (a b : Session) : Bool :=
  a.distance < b.distance || (a.distance == b.distance && b.timestamp ≤ a.timestamp)

/-- The comparator as a relation, for the stable sort. -/
def sessionRel (a b : Session) : Prop :=
  sessionLE a b = true

instance : DecidableRel sessionRel :=
  fun a b => inferInstanceAs (Decidable (sessionLE a b = true))

/-- `scanSessions` from `sessionScanner.ts`: empty when the root storage
directory is missing; otherwise accumulate sessions, attach the path distance
to `currentDir`, and sort by distance then recency (a stable sort, like the
JavaScript `Array.prototype.sort` it models). -/
def scanSessions (currentDir : String) (fs : ClaudeFS) : List Session :=
  if !fs.rootExists then []
  else
    List.insertionSort sessionRel
      ((collectSessions fs).map fun s =>
        { s with distance := calculatePathDistance currentDir s.directory })

/-- `getAllText` from `sessionScanner.ts`: the first message followed by the
extracted text of every message with truthy content, joined with newlines. -/
def getAllText (session : Session) : String :=
  joinWith "\n"
    (session.firstMessage ::
      session.messages.filterMap fun m =>
        match m.message with
        | some p => if contentTruthy p.content then some (extractTextContent p.content) else none
        | none => none)

/-- `getMessageCount` from `SearchView.tsx`: entries whose `type` is `user` or
`assistant`, with no condition on their text. -/
def getMessageCount (session : Session) : Nat :=
  (session.messages.filter fun m => m.type == "user" || m.type == "assistant").length

/-- One element of `fuse.search(query)`: the matched session and its optional
fuzzy score (0 = perfect, 1 = worst). -/
structure FuseResult where
  item : Session
  score : Option ℚ := none
deriving DecidableEq, Repr

/-- The `result.score || 0` read. -/
def searchScoreOf (r : FuseResult) : ℚ :=
  (r.score).getD 0

/-- The `Math.max(...sessions.map(s => s.distance || 0), 1)` denominator. -/
def maxDistanceFloor (sessions : List Session) : Nat :=
  (sessions.map (·.distance)).foldr max 1

/-- The `Math.max(...sessions.map(s => now - s.timestamp.getTime()), 1)`
denominator. -/
def maxAgeFloor (now : Int) (sessions : List Session) : Int :=
  (sessions.map fun s => now - s.timestamp).foldr max 1

/-- The combined score of one fuse result, exactly as `SearchView` computes
it: `searchScore * 0.7 + distanceScore * 0.2 + ageScore * 0.1`. -/
def combinedScore (sessions : List Session) (now : Int) (r : FuseResult) : ℚ :=
  searchScoreOf r * (7 / 10)
    + ((r.item.distance : ℚ) / (maxDistanceFloor sessions : ℚ)) * (2 / 10)
    + (((now - r.item.timestamp : Int) : ℚ) / ((maxAgeFloor now sessions : Int) : ℚ)) * (1 / 10)

/-- The scored-and-sorted result list of `SearchView`'s search effect:
attach the combined score to every fuse result, then sort ascending by it
(stable, like the JavaScript `Array.prototype.sort` it models). -/
def scoreResults (sessions : List Session) (now : Int) (results : List FuseResult) :
    List (FuseResult × ℚ) :=
  List.insertionSort (fun a b => a.2 ≤ b.2)
    (results.map fun r => (r, combinedScore sessions now r))

/-! Spec-side definitions.  Each follows the wording of the specification (or
of a claim derived from it), to be compared with the definitions above that
were transcribed from the source. -/

/-- Spec reading of text extraction (claim C5): only the `text`/`thinking`
blocks contribute, and ignored blocks add no separator either. -/
def specC5Extract : Content → String
  | .str s => s
  | .blocks items =>
    String.intercalate " "
      ((items.filter fun i =>
          (i.type = "text" && optTruthy i.text)
            || (i.type = "thinking" && optTruthy i.thinking)).map blockText)

/-- Amended reading of text extraction: every block contributes a join slot
(non-`text`, non-`thinking` blocks contribute the empty string), and the slots
are interleaved with single spaces. -/
def specC5Amended : Content → String
  | .str s => s
  | .blocks items => String.intercalate " " (items.map blockText)

/-- The extracted display text of one entry (empty when there is no payload). -/
def extractedOf (m : SessionMessage) : String :=
  match m.message with
  | some p => extractTextContent p.content
  | none => ""

/-- Spec reading of the message count (claim C8): user/assistant entries with
non-empty extracted text. -/
def specMessageCount (session : Session) : Nat :=
  (session.messages.filter fun m =>
    (m.type == "user" || m.type == "assistant") && extractedOf m ≠ "").length

/-- Amended reading of the message count: user/assistant entries, with no
condition on their text. -/
def countUA : List SessionMessage → Nat
  | [] => 0
  | m :: rest =>
    (if m.type = "user" ∨ m.type = "assistant" then 1 else 0) + countUA rest

/-- Spec reading of the search text (claim C7): the extracted text of every
entry, each contributing exactly once. -/
def specAllText (session : Session) : String :=
  String.intercalate "\n" (session.messages.map extractedOf)

/-- The extracted texts of the entries with truthy content, in order. -/
def contentTexts : List SessionMessage → List String
  | [] => []
  | m :: rest =>
    match m.message with
    | some p =>
      if contentTruthy p.content then extractTextContent p.content :: contentTexts rest
      else contentTexts rest
    | none => contentTexts rest

/-- Amended reading of the search text: the session's first message followed
by the extracted text of every entry with truthy content, newline-joined. -/
def specC7Amended (session : Session) : String :=
  String.intercalate "\n" (session.firstMessage :: contentTexts session.messages)

/-- Largest `distance` over the whole corpus (no floor). -/
def corpusMaxDistance (sessions : List Session) : Nat :=
  (sessions.map (·.distance)).foldr max 0

/-- Largest age over the whole corpus (no floor). -/
def corpusMaxAge (now : Int) (sessions : List Session) : Int :=
  (sessions.map fun s => now - s.timestamp).foldr max 0

/-- Spec reading of the normalized distance (claim C3): `distance /
maxDistanceInCorpus`, and `0` when every corpus distance is `0`. -/
def specNormDistance (sessions : List Session) (s : Session) : ℚ :=
  if ∀ t ∈ sessions, t.distance = 0 then 0
  else (s.distance : ℚ) / (corpusMaxDistance sessions : ℚ)

/-- Spec reading of the normalized age (claim C3): `(now − timestamp) /
maxAgeInCorpus`, and `0` when every corpus age is `0`. -/
def specNormAge (now : Int) (sessions : List Session) (s : Session) : ℚ :=
  if ∀ t ∈ sessions, now - t.timestamp = 0 then 0
  else ((now - s.timestamp : Int) : ℚ) / ((corpusMaxAge now sessions : Int) : ℚ)

/-! Concrete fixtures used by counterexamples and witnesses. -/

/-- A user entry whose string content is the given text. -/
def userMsg (c : String) : SessionMessage :=
  { type := "user", message := some { role := "user", content := .str c } }

/-- The `Warmup` sentinel entry of spec Scenario B. -/
def msgWarmup : SessionMessage := userMsg "Warmup"

/-- A perfectly ordinary conversation opener. -/
def msgHello : SessionMessage := userMsg "hello world"

/-- Scenario B log file: the sentinel line followed by a real entry. -/
def fileWarm : SessionFile := { name := "w.jsonl", lines := [some msgWarmup, some msgHello] }

/-- The same file without the sentinel line. -/
def fileHello : SessionFile := { name := "w.jsonl", lines := [some msgHello] }

/-- A storage root holding only the Scenario B file. -/
def fsWarm : ClaudeFS := { rootExists := true, projects := [{ name := "-root-proj", files := [fileWarm] }] }

/-- A file whose first message is `"ab "`: three raw characters, two after
trimming. -/
def fileAb : SessionFile := { name := "ab.jsonl", lines := [some (userMsg "ab ")] }

/-- A storage root holding only `fileAb`. -/
def fsAb : ClaudeFS := { rootExists := true, projects := [{ name := "-p", files := [fileAb] }] }

/-- The session `scanSessions "/q" fsAb` produces. -/
def sessionAb : Session :=
  { id := "ab", directory := "p", filePath := "-p/ab.jsonl", firstMessage := "ab "
    messages := [userMsg "ab "], timestamp := 0, cwd := "p", distance := 2 }

/-- A file with a real opener and a user entry whose content is the empty
string. -/
def fileHix : SessionFile := { name := "h.jsonl", lines := [some (userMsg "hix"), some (userMsg "")] }

/-- A storage root holding only `fileHix`. -/
def fsHix : ClaudeFS := { rootExists := true, projects := [{ name := "-p", files := [fileHix] }] }

/-- The session `scanSessions "/q" fsHix` produces. -/
def sessionHix : Session :=
  { id := "h", directory := "p", filePath := "-p/h.jsonl", firstMessage := "hix"
    messages := [userMsg "hix", userMsg ""], timestamp := 0, cwd := "p", distance := 2 }

/-- A file with two real user entries. -/
def fileDup : SessionFile := { name := "d.jsonl", lines := [some (userMsg "hix"), some (userMsg "yo22")] }

/-- A storage root holding only `fileDup`. -/
def fsDup : ClaudeFS := { rootExists := true, projects := [{ name := "-p", files := [fileDup] }] }

/-- The session `scanSessions "/q" fsDup` produces. -/
def sessionDup : Session :=
  { id := "d", directory := "p", filePath := "-p/d.jsonl", firstMessage := "hix"
    messages := [userMsg "hix", userMsg "yo22"], timestamp := 0, cwd := "p", distance := 2 }

/-- The tail part of an intercalation: a separator before every element. -/
def joinTail (sep : String) : List String → String
  | [] => ""
  | a :: as => sep ++ a ++ joinTail sep as

/-- A filesystem whose root storage directory is missing. -/
def fsMissing : ClaudeFS := { rootExists := false, projects := [] }

/-- A content array holding one tool-invocation block and one text block. -/
def cexBlocks : List ContentBlock := [{ type := "tool_use" }, { type := "text", text := some "a" }]

/-- A fuse result for `sessionAb` with a middling fuzzy score. -/
def resAb : FuseResult := { item := sessionAb, score := some (1 / 2) }

/-! Helper lemmas. -/

/-- The accumulator recursion of `String.intercalate` prepends its accumulator
to a separator-prefixed tail join. -/
theorem intercalate_go_eq (sep : String) :
    ∀ (as : List String) (acc : String),
      String.intercalate.go acc sep as = acc ++ joinTail sep as := by
  intro as
  induction as with
  | nil => intro acc; simp [String.intercalate.go, joinTail]
  | cons a as ih =>
    intro acc
    rw [String.intercalate.go, ih, joinTail]
    simp [String.append_assoc]

/-- Joining a non-empty list is its head followed by the separator-prefixed
tail join. -/
theorem joinWith_cons (sep : String) :
    ∀ (as : List String) (a : String), joinWith sep (a :: as) = a ++ joinTail sep as := by
  intro as
  induction as with
  | nil => intro a; simp [joinWith, joinTail]
  | cons b bs ih =>
    intro a
    calc joinWith sep (a :: b :: bs) = a ++ sep ++ joinWith sep (b :: bs) := rfl
    _ = a ++ sep ++ (b ++ joinTail sep bs) := by rw [ih]
    _ = a ++ joinTail sep (b :: bs) := by rw [joinTail]; simp [String.append_assoc]

/-- The model of `Array.prototype.join` agrees with `String.intercalate`. -/
theorem joinWith_eq_intercalate (sep : String) :
    ∀ l : List String, joinWith sep l = String.intercalate sep l := by
  intro l
  cases l with
  | nil => rfl
  | cons a as => rw [String.intercalate, intercalate_go_eq, joinWith_cons]

/-- The common-leading-run length is symmetric. -/
theorem commonLen_comm : ∀ xs ys : List String, commonLen xs ys = commonLen ys xs := by
  intro xs
  induction xs with
  | nil => intro ys; cases ys <;> rfl
  | cons a as ih =>
    intro ys
    cases ys with
    | nil => rfl
    | cons b bs =>
      rw [commonLen, commonLen, ih bs]
      by_cases h : a = b
      · rw [if_pos h, if_pos h.symm]
      · rw [if_neg h, if_neg (fun hb => h hb.symm)]

/-- A list shares its whole leading run with itself. -/
theorem commonLen_self : ∀ xs : List String, commonLen xs xs = xs.length := by
  intro xs
  induction xs with
  | nil => rfl
  | cons a as ih => simp [commonLen, ih]

/-- C6: `calculatePathDistance` equals segments-minus-common on either side,
is symmetric, and is zero on identical paths. -/
theorem C6_path_distance_props (a b : String) :
    calculatePathDistance a b
        = ((pathParts a).length - commonLen (pathParts a) (pathParts b))
          + ((pathParts b).length - commonLen (pathParts a) (pathParts b))
      ∧ calculatePathDistance a b = calculatePathDistance b a
      ∧ calculatePathDistance a a = 0 := by
  refine ⟨rfl, ?_, ?_⟩
  · unfold calculatePathDistance
    rw [commonLen_comm]
    omega
  · unfold calculatePathDistance
    rw [commonLen_self]
    omega

/-- C9: a missing root storage directory yields an empty session list, for
every caller-supplied current directory. -/
theorem C9_missing_root (currentDir : String) (fs : ClaudeFS)
    (h : fs.rootExists = false) : scanSessions currentDir fs = [] := by
  simp [scanSessions, h]

/-- Witness for C9 at a concrete filesystem. -/
theorem C9_missing_root_witness : scanSessions "/anywhere" fsMissing = [] :=
  C9_missing_root "/anywhere" fsMissing rfl

/-- Everything `processFile` guarantees about a session it emits: the
`directory`/`cwd` aliasing and every first-message filter. -/
theorem processFile_eq_some {pname : String} {f : SessionFile} {s : Session}
    (h : processFile pname f = some s) :
    s.directory = s.cwd
      ∧ jsTrim s.firstMessage ≠ ""
      ∧ jsTrim (jsToLower s.firstMessage) ≠ "warmup"
      ∧ jsTrim (jsToLower s.firstMessage) ≠ "claim"
      ∧ jsStartsWith s.firstMessage "<command-message>" = false
      ∧ jsStartsWith s.firstMessage "<command-name>" = false
      ∧ (jsStartsWith s.firstMessage "\x7b" && jsIncludes s.firstMessage "\"hooks\"") = false
      ∧ 3 ≤ jsLength s.firstMessage := by
  simp only [processFile] at h
  split at h
  · exact Option.noConfusion h
  split at h
  · exact Option.noConfusion h
  split at h
  · exact Option.noConfusion h
  split at h
  · exact Option.noConfusion h
  split at h
  · exact Option.noConfusion h
  split at h
  · exact Option.noConfusion h
  split at h
  · exact Option.noConfusion h
  split at h
  · exact Option.noConfusion h
  split at h
  · exact Option.noConfusion h
  next h1 h2 h3 h4 h5 h6 h7 =>
    obtain rfl := Option.some.inj h
    refine ⟨rfl, h1, h2, h3, ?_, ?_, ?_, ?_⟩
    · simpa using h4
    · simpa using h5
    · simpa using h6
    · exact Nat.not_lt.mp h7

/-- Inverting membership in `scanSessions`: every returned session is a
`processFile` output with the distance field attached. -/
theorem mem_scanSessions {cd : String} {fs : ClaudeFS} {s : Session}
    (h : s ∈ scanSessions cd fs) :
    ∃ pname f s₀, processFile pname f = some s₀
      ∧ s = { s₀ with distance := calculatePathDistance cd s₀.directory } := by
  unfold scanSessions at h
  split at h
  · simp at h
  · rw [List.mem_insertionSort] at h
    obtain ⟨s₀, hs₀, rfl⟩ := List.mem_map.1 h
    unfold collectSessions at hs₀
    obtain ⟨proj, hproj, hmem⟩ := List.mem_flatMap.1 hs₀
    obtain ⟨f, hf, hpf⟩ := List.mem_filterMap.1 hmem
    exact ⟨proj.name, f, s₀, hpf, rfl⟩

/-- C10: every session produced by `scanSessions` has identical `directory`
and `cwd` fields. -/
theorem C10_directory_eq_cwd (currentDir : String) (fs : ClaudeFS) (s : Session)
    (h : s ∈ scanSessions currentDir fs) : s.directory = s.cwd := by
  obtain ⟨pname, f, s₀, hpf, rfl⟩ := mem_scanSessions h
  exact (processFile_eq_some hpf).1

/-- Witness for C10 at a concrete corpus. -/
theorem C10_directory_eq_cwd_witness : sessionAb.directory = sessionAb.cwd :=
  C10_directory_eq_cwd "/q" fsAb sessionAb (by decide)

/-- C5 counterexample: a content array whose first block is a tool invocation
still contributes a join slot, so the ignored block adds a leading separator
and the result differs from the claimed text-blocks-only concatenation. -/
theorem C5_counterexample :
    extractTextContent (Content.blocks cexBlocks) = " a"
      ∧ specC5Extract (Content.blocks cexBlocks) = "a"
      ∧ extractTextContent (Content.blocks cexBlocks) ≠ specC5Extract (Content.blocks cexBlocks) := by
  decide

/-- C5 amended: a plain string is returned unchanged; an array yields the
per-block texts of all blocks joined with single spaces, where blocks that
are not contributing `text`/`thinking` blocks supply empty slots (and hence
separators), rather than being dropped. -/
theorem C5_amended_extract (c : Content) : extractTextContent c = specC5Amended c := by
  cases c with
  | str s => rfl
  | blocks items =>
    show joinWith " " (items.map blockText) = String.intercalate " " (items.map blockText)
    exact joinWith_eq_intercalate " " (items.map blockText)

/-- C8 counterexample: a corpus session holding a user entry with empty string
content; the exposed count (2) counts it, the claimed count (1) does not. -/
theorem C8_counterexample :
    sessionHix ∈ scanSessions "/q" fsHix
      ∧ getMessageCount sessionHix = 2
      ∧ specMessageCount sessionHix = 1
      ∧ getMessageCount sessionHix ≠ specMessageCount sessionHix := by
  decide

/-- C8 amended: the exposed message count is the number of entries whose kind
is `user` or `assistant`, with no condition on their extracted text. -/
theorem C8_amended_count (s : Session) : getMessageCount s = countUA s.messages := by
  unfold getMessageCount
  induction s.messages with
  | nil => rfl
  | cons m rest ih =>
    by_cases h : m.type = "user" ∨ m.type = "assistant"
    · have hb : (m.type == "user" || m.type == "assistant") = true := by
        rcases h with h | h <;> simp [h]
      rw [List.filter_cons, if_pos hb, List.length_cons, ih, countUA, if_pos h]
      omega
    · have hb : (m.type == "user" || m.type == "assistant") = false := by
        push_neg at h
        simp [h.1, h.2]
      rw [List.filter_cons, if_neg (by simp [hb]), ih, countUA, if_neg h]
      omega

/-- C7 counterexample: a corpus session with two entries; the fuzzy-search
text repeats the first entry's text (once as the denormalized first message,
once in entry order), so it differs from the claimed each-entry-once
concatenation. -/
theorem C7_counterexample :
    sessionDup ∈ scanSessions "/q" fsDup
      ∧ getAllText sessionDup = "hix\nhix\nyo22"
      ∧ specAllText sessionDup = "hix\nyo22"
      ∧ getAllText sessionDup ≠ specAllText sessionDup := by
  decide

/-- C7 amended: the fuzzy-search text is the session's first message followed
by the extracted text of every entry with truthy content, newline-joined, so
the first qualifying entry's text contributes twice. -/
theorem C7_amended_text (s : Session) : getAllText s = specC7Amended s := by
  unfold getAllText specC7Amended
  rw [joinWith_eq_intercalate]
  congr 1
  congr 1
  induction s.messages with
  | nil => rfl
  | cons m rest ih =>
    cases hm : m.message with
    | none => simp [List.filterMap_cons, hm, contentTexts, ih]
    | some p =>
      by_cases hc : contentTruthy p.content
      · simp [List.filterMap_cons, hm, contentTexts, hc, ih]
      · simp [List.filterMap_cons, hm, contentTexts, hc, ih]

/-- C2 counterexample: the first message `"ab "` has three raw characters but
only two after trimming, yet its session is admitted to the corpus. -/
theorem C2_counterexample :
    sessionAb ∈ scanSessions "/q" fsAb
      ∧ sessionAb.firstMessage = "ab "
      ∧ jsLength sessionAb.firstMessage = 3
      ∧ jsLength (jsTrim sessionAb.firstMessage) = 2 := by
  decide

/-- C2 amended: every corpus session's first message is non-empty after
trimming, has at least three characters before trimming (the length check is
on the raw string), is not a trimmed-lowercase sentinel, carries no
command-envelope marker, and does not look like a serialized hooks object. -/
theorem C2_amended_first_message_filters (currentDir : String) (fs : ClaudeFS) (s : Session)
    (h : s ∈ scanSessions currentDir fs) :
    jsTrim s.firstMessage ≠ ""
      ∧ 3 ≤ jsLength s.firstMessage
      ∧ jsTrim (jsToLower s.firstMessage) ≠ "warmup"
      ∧ jsTrim (jsToLower s.firstMessage) ≠ "claim"
      ∧ jsStartsWith s.firstMessage "<command-message>" = false
      ∧ jsStartsWith s.firstMessage "<command-name>" = false
      ∧ (jsStartsWith s.firstMessage "\x7b" && jsIncludes s.firstMessage "\"hooks\"") = false := by
  obtain ⟨pname, f, s₀, hpf, rfl⟩ := mem_scanSessions h
  obtain ⟨-, h1, h2, h3, h4, h5, h6, h7⟩ := processFile_eq_some hpf
  exact ⟨h1, h7, h2, h3, h4, h5, h6⟩

/-- Witness for the amended C2 at a concrete corpus. -/
theorem C2_amended_first_message_filters_witness :
    jsTrim sessionAb.firstMessage ≠ ""
      ∧ 3 ≤ jsLength sessionAb.firstMessage
      ∧ jsTrim (jsToLower sessionAb.firstMessage) ≠ "warmup"
      ∧ jsTrim (jsToLower sessionAb.firstMessage) ≠ "claim"
      ∧ jsStartsWith sessionAb.firstMessage "<command-message>" = false
      ∧ jsStartsWith sessionAb.firstMessage "<command-name>" = false
      ∧ (jsStartsWith sessionAb.firstMessage "\x7b" && jsIncludes sessionAb.firstMessage "\"hooks\"") = false :=
  C2_amended_first_message_filters "/q" fsAb sessionAb (by decide)

/-- C1 counterexample: in a file whose first truthy user entry is the
`Warmup` sentinel and whose next user entry qualifies on its own (a file with
just that entry yields a session), the scan produces no session at all. -/
theorem C1_counterexample :
    jsTrim (jsToLower (extractedOf msgWarmup)) = "warmup"
      ∧ isQualifyingUser msgHello = true
      ∧ (processFile "-root-proj" fileHello).isSome = true
      ∧ processFile "-root-proj" fileWarm = none
      ∧ scanSessions "/x" fsWarm = [] := by
  decide

/-- C1 amended: whenever the first user entry with truthy content of a log
file extracts to text whose trimmed lowercase form is `warmup`, the file is
skipped entirely — no session is built from it, regardless of any later
qualifying entries. -/
theorem C1_amended_warmup_skips_file (pname : String) (f : SessionFile)
    (m : SessionMessage) (p : MessagePayload)
    (hfind : (f.lines.filterMap id).find? isQualifyingUser = some m)
    (hmsg : m.message = some p)
    (hw : jsTrim (jsToLower (extractTextContent p.content)) = "warmup") :
    processFile pname f = none := by
  simp only [processFile, hfind, hmsg]
  by_cases h0 : jsTrim (extractTextContent p.content) = ""
  · simp [h0]
  · simp [h0, hw]

/-- Witness for the amended C1 at the Scenario B file. -/
theorem C1_amended_warmup_skips_file_witness :
    processFile "-root-proj" fileWarm = none :=
  C1_amended_warmup_skips_file "-root-proj" fileWarm msgWarmup
    { role := "user", content := .str "Warmup" } (by decide) (by decide) (by decide)

/-- The sort comparator in propositional form. -/
theorem sessionRel_iff (a b : Session) :
    sessionRel a b
      ↔ a.distance < b.distance
        ∨ (a.distance = b.distance ∧ b.timestamp ≤ a.timestamp) := by
  simp [sessionRel, sessionLE, Bool.or_eq_true, Bool.and_eq_true,
    decide_eq_true_eq, beq_iff_eq]

instance : IsTotal Session sessionRel :=
  ⟨by
    intro a b
    rw [sessionRel_iff, sessionRel_iff]
    omega⟩

instance : IsTrans Session sessionRel :=
  ⟨by
    intro a b c hab hbc
    rw [sessionRel_iff] at hab hbc ⊢
    omega⟩

/-- C4: in the list `scanSessions` returns, every adjacent pair is ordered by
distance ascending, ties broken by timestamp descending. -/
theorem C4_scan_order (currentDir : String) (fs : ClaudeFS) :
    (scanSessions currentDir fs).Chain' fun a b =>
      a.distance < b.distance
        ∨ (a.distance = b.distance ∧ b.timestamp ≤ a.timestamp) := by
  unfold scanSessions
  split
  · exact List.chain'_nil
  · refine List.Pairwise.chain' ?_
    refine List.Pairwise.imp ?_ (List.sorted_insertionSort sessionRel _)
    intro a b hab
    exact (sessionRel_iff a b).1 hab

/-- Folding `max` over a larger start value factors the start value out. -/
theorem foldr_max_init {α : Type} [LinearOrder α] :
    ∀ (l : List α) (a b : α), l.foldr max (max a b) = max a (l.foldr max b) := by
  intro l a b
  induction l with
  | nil => rfl
  | cons x xs ih =>
    rw [List.foldr_cons, List.foldr_cons, ih, max_left_comm]

/-- Every member of a list bounds the `max` fold from below. -/
theorem mem_le_foldr_max {α : Type} [LinearOrder α] (b : α) :
    ∀ {l : List α} {x : α}, x ∈ l → x ≤ l.foldr max b := by
  intro l
  induction l with
  | nil => intro x hx; cases hx
  | cons a as ih =>
    intro x hx
    rw [List.foldr_cons]
    rcases List.mem_cons.1 hx with h | h
    · exact h ▸ le_max_left _ _
    · exact le_trans (ih h) (le_max_right _ _)

/-- The floored distance denominator agrees with the claimed normalization
for corpus members. -/
theorem normDistance_eq {sessions : List Session} {s : Session} (hs : s ∈ sessions) :
    (s.distance : ℚ) / (maxDistanceFloor sessions : ℚ) = specNormDistance sessions s := by
  unfold specNormDistance
  split
  · next hall =>
    have h0 : s.distance = 0 := hall s hs
    simp [h0]
  · next hall =>
    push_neg at hall
    obtain ⟨t, ht, htd⟩ := hall
    have hmem : t.distance ∈ sessions.map (·.distance) := List.mem_map_of_mem _ ht
    have hle : t.distance ≤ corpusMaxDistance sessions := mem_le_foldr_max 0 hmem
    have h2 : maxDistanceFloor sessions = corpusMaxDistance sessions := by
      unfold maxDistanceFloor corpusMaxDistance
      have hh : (1 : Nat) = max 1 0 := by omega
      rw [hh, foldr_max_init]
      have : 1 ≤ (sessions.map (·.distance)).foldr max 0 := by
        unfold corpusMaxDistance at hle
        omega
      omega
    rw [h2]

/-- The floored age denominator agrees with the claimed normalization for
corpus members, provided no session postdates `now`. -/
theorem normAge_eq {now : Int} {sessions : List Session} {s : Session} (hs : s ∈ sessions)
    (hage : ∀ t ∈ sessions, t.timestamp ≤ now) :
    ((now - s.timestamp : Int) : ℚ) / ((maxAgeFloor now sessions : Int) : ℚ)
      = specNormAge now sessions s := by
  unfold specNormAge
  split
  · next hall =>
    have h0 : now - s.timestamp = 0 := hall s hs
    rw [h0]
    simp
  · next hall =>
    push_neg at hall
    obtain ⟨t, ht, htd⟩ := hall
    have hnn : 0 ≤ now - t.timestamp := by
      have := hage t ht
      omega
    have hmem : now - t.timestamp ∈ sessions.map fun u => now - u.timestamp :=
      List.mem_map_of_mem _ ht
    have hle : now - t.timestamp ≤ corpusMaxAge now sessions := mem_le_foldr_max 0 hmem
    have h2 : maxAgeFloor now sessions = corpusMaxAge now sessions := by
      unfold maxAgeFloor corpusMaxAge
      have hh : (1 : Int) = max 1 0 := by omega
      rw [hh, foldr_max_init]
      have : 1 ≤ (sessions.map fun u => now - u.timestamp).foldr max 0 := by
        unfold corpusMaxAge at hle
        omega
      omega
    rw [h2]

/-- C3: every scored result carries exactly the claimed combined score, with
both normalizations over the full corpus (and zero when the corpus distances
or ages are all zero), and the result list ascends by that score.  Sessions
are assumed not to postdate `now`, so ages are non-negative. -/
theorem C3_combined_score (sessions : List Session) (now : Int) (results : List FuseResult)
    (hmem : ∀ r ∈ results, r.item ∈ sessions)
    (hage : ∀ t ∈ sessions, t.timestamp ≤ now) :
    (∀ p ∈ scoreResults sessions now results,
        p.2 = (7 / 10 : ℚ) * searchScoreOf p.1
            + (2 / 10 : ℚ) * specNormDistance sessions p.1.item
            + (1 / 10 : ℚ) * specNormAge now sessions p.1.item)
      ∧ (scoreResults sessions now results).Chain' fun p q => p.2 ≤ q.2 := by
  constructor
  · intro p hp
    rw [scoreResults, List.mem_insertionSort] at hp
    obtain ⟨r, hr, rfl⟩ := List.mem_map.1 hp
    have hD := normDistance_eq (hmem r hr)
    have hA := normAge_eq (hmem r hr) hage
    show combinedScore sessions now r = _
    unfold combinedScore
    rw [hD, hA]
    ring
  · haveI : IsTotal (FuseResult × ℚ) fun a b => a.2 ≤ b.2 := ⟨fun a b => le_total _ _⟩
    haveI : IsTrans (FuseResult × ℚ) fun a b => a.2 ≤ b.2 := ⟨fun _ _ _ => le_trans⟩
    unfold scoreResults
    exact List.Pairwise.chain' (List.sorted_insertionSort _ _)

/-- Witness for C3 at a concrete corpus, query result and clock. -/
theorem C3_combined_score_witness :
    combinedScore [sessionAb] 100 resAb
      = (7 / 10 : ℚ) * searchScoreOf resAb
        + (2 / 10 : ℚ) * specNormDistance [sessionAb] resAb.item
        + (1 / 10 : ℚ) * specNormAge 100 [sessionAb] resAb.item := by
  have h := C3_combined_score [sessionAb] 100 [resAb] (by decide) (by decide)
  exact h.1 (resAb, combinedScore [sessionAb] 100 resAb)
    (by simp [scoreResults, List.insertionSort, List.orderedInsert])
